import Mathlib

/-!
Shallow embedding of the event-coordination core of the kernel
(`src/event/manager.rs` and the zombie-reaping part of `src/kcall/handler.rs`).

The Rust `EventManagerInner` state is modelled as `EMState`; its fixed-size
arrays (`[_; usize::BITS]`, `[_; SchedulingEvent::NUMBER_EVENTS]`) become
lists read with `List.getD` and written with `List.set`; `LinkedList` queues
become `List` with `push_back` as append and `pop_front` as head split.
Fallible operations return an `Except ErrorCode` result next to the updated
state, matching Rust methods on `&mut self` that may return early with an
error after having performed some mutations.

Types that live in the external `sys` crate (event descriptors, messages,
reserved pids) are modelled from the spec, as noted on each definition.
-/

namespace KernelEvent

/-- Machine word bit width (`usize::BITS`); the kernel targets 32-bit x86. -/
def W : Nat := 32

/-- Modelled from the spec: `SchedulingEvent::NUMBER_EVENTS` (`NSCHED`) is 1,
the single kind being `ProcessTermination` at index 0. -/
def NSCHED : Nat := 1

/-- Modelled from the spec: `ProcessIdentifier` is an opaque small integer. -/
abbrev Pid := Nat

/-- Modelled from the spec: reserved pid `KERNEL`, the source of
kernel-generated messages. -/
def KERNEL_PID : Pid := 0

/-- Modelled from the spec: reserved pid `PROCD`, the process daemon whose
termination triggers system shutdown. -/
def PROCD : Pid := 1

/-- Error codes of `sys::error::ErrorCode` used by the event core. The extra
variant `Unimplemented` stands for the points where the source aborts via the
`unimplemented!` panic instead of returning an error. -/
inductive ErrorCode
  | ResourceBusy
  | PermissionDenied
  | InvalidArgument
  | OperationNotSupported
  | NoSuchProcess
  | TryAgain
  | Unimplemented
  deriving DecidableEq

/-- Capabilities gating event registration (`sys::pm::Capability`). -/
inductive Capability
  | InterruptControl
  | ExceptionControl
  | ProcessManagement
  deriving DecidableEq

/-- `sys::event::EventCtrlRequest`. -/
inductive EventCtrlRequest
  | Register
  | Unregister
  deriving DecidableEq

/-- Modelled from the spec: `Event` is a tagged union of the three classes,
with an index below `W` for interrupts and exceptions and below `NSCHED` for
scheduling events. -/
inductive Event
  | interrupt (n : Nat)
  | exception (n : Nat)
  | scheduling (k : Nat)
  deriving DecidableEq

/-- Modelled from the spec: `EventDescriptor` is a pair of the sequence
number allocated at enqueue time and the event. -/
structure EventDescriptor where
  sequence : Nat
  event : Event
  deriving DecidableEq

/-- Exception record delivered by the trap surface
(`hal::arch::ExceptionInformation`): vector number, error code, fault
address, faulting instruction. -/
structure ExceptionInformation where
  num : Nat
  code : Nat
  addr : Nat
  instruction : Nat
  deriving DecidableEq

/-- `ExceptionEventInformation` from `src/event/manager.rs`: the faulting pid
together with the trap record. -/
structure ExceptionEventInformation where
  pid : Pid
  info : ExceptionInformation
  deriving DecidableEq

/-- Identity of an `Rc<Condvar>` resume handle; notifications are reported
as values instead of side effects. -/
abbrev ResumeHandle := Nat

/-- One entry of `pending_exceptions[idx]`: the tuple
`(EventDescriptor, ExceptionEventInformation, Rc<Condvar>)`. -/
structure PendingException where
  desc : EventDescriptor
  info : ExceptionEventInformation
  resume : ResumeHandle
  deriving DecidableEq

/-- Modelled from the spec: `ProcessTerminationInfo` carries the terminated
pid and its exit status. -/
structure ProcessTerminationInfo where
  pid : Pid
  status : Int
  deriving DecidableEq

/-- Message types of `sys::ipc::MessageType` used by the event core. -/
inductive MessageType
  | Ipc
  | Interrupt
  | Exception
  | SchedulingEvent
  deriving DecidableEq

/-- Modelled from the spec: the `EventInformation` record encoded in the
payload of exception messages (descriptor, faulting pid, vector, code,
address, instruction), with the `Option` fields of the source struct. -/
structure EventInformation where
  id : EventDescriptor
  pid : Pid
  number : Option Nat
  code : Option Nat
  address : Option Nat
  instruction : Option Nat
  deriving DecidableEq

/-- Message payload, abstracting the 64-byte array of the source: the three
shapes the event core writes into it. -/
inductive Payload
  | empty
  | eventInfo (info : EventInformation)
  | termination (info : ProcessTerminationInfo)
  deriving DecidableEq

/-- Modelled from the spec: `sys::ipc::Message` with the payload bytes
abstracted by `Payload`. -/
structure Message where
  source : Pid
  destination : Pid
  message_type : MessageType
  status : Int
  payload : Payload
  deriving DecidableEq

/-- State of `EventManagerInner` (the `wait` condvar itself is omitted;
notifications are surfaced as return values). -/
structure EMState where
  interrupt_capable : Bool
  nevents : Nat
  interrupt_ownership : List (Option Pid)
  pending_interrupts : List (List EventDescriptor)
  exception_ownership : List (Option Pid)
  pending_exceptions : List (List PendingException)
  scheduling_ownership : List (Option Pid)
  pending_scheduling : List (List (EventDescriptor × ProcessTerminationInfo))
  deriving DecidableEq

/-- Capability oracle standing for `ProcessManager::has_capability`
(the process manager is external to the event core). -/
abbrev CapOracle := Pid → Capability → Bool

/-- `EventManagerInner::do_evctrl_interrupt` (manager.rs:125-184), including
the early occupied-slot check at manager.rs:131-137 that precedes the match
on the request. -/
def do_evctrl_interrupt (caps : CapOracle) (s : EMState) (pid : Option Pid)
    (ev : Nat) (req : EventCtrlRequest) : EMState × Except ErrorCode Unit :=
  let idx := ev
  if (s.interrupt_ownership.getD idx none).isSome then
    (s, .error .ResourceBusy)
  else
    match req with
    | .Register =>
      match pid with
      | some pid =>
        if ¬ caps pid .InterruptControl then
          (s, .error .PermissionDenied)
        else if (s.interrupt_ownership.getD idx none).isSome then
          (s, .error .ResourceBusy)
        else
          ({ s with interrupt_ownership := s.interrupt_ownership.set idx (some pid) }, .ok ())
      | none => (s, .error .InvalidArgument)
    | .Unregister =>
      match pid with
      | some pid =>
        if s.interrupt_ownership.getD idx none ≠ some pid then
          (s, .error .PermissionDenied)
        else
          ({ s with interrupt_ownership := s.interrupt_ownership.set idx none }, .ok ())
      | none =>
        ({ s with interrupt_ownership := s.interrupt_ownership.set idx none }, .ok ())

/-- `EventManagerInner::do_evctrl_exception` (manager.rs:186-239). -/
def do_evctrl_exception (caps : CapOracle) (s : EMState) (pid : Option Pid)
    (ev : Nat) (req : EventCtrlRequest) : EMState × Except ErrorCode Unit :=
  let idx := ev
  match req with
  | .Register =>
    match pid with
    | some pid =>
      if ¬ caps pid .ExceptionControl then
        (s, .error .PermissionDenied)
      else if (s.exception_ownership.getD idx none).isSome then
        (s, .error .ResourceBusy)
      else
        ({ s with exception_ownership := s.exception_ownership.set idx (some pid) }, .ok ())
    | none => (s, .error .InvalidArgument)
  | .Unregister =>
    match pid with
    | some pid =>
      if s.exception_ownership.getD idx none ≠ some pid then
        (s, .error .PermissionDenied)
      else
        ({ s with exception_ownership := s.exception_ownership.set idx none }, .ok ())
    | none =>
      ({ s with exception_ownership := s.exception_ownership.set idx none }, .ok ())

/-- `EventManagerInner::do_evctrl_scheduling` (manager.rs:241-294). -/
def do_evctrl_scheduling (caps : CapOracle) (s : EMState) (pid : Option Pid)
    (ev : Nat) (req : EventCtrlRequest) : EMState × Except ErrorCode Unit :=
  let idx := ev
  match req with
  | .Register =>
    match pid with
    | some pid =>
      if ¬ caps pid .ProcessManagement then
        (s, .error .PermissionDenied)
      else if (s.scheduling_ownership.getD idx none).isSome then
        (s, .error .ResourceBusy)
      else
        ({ s with scheduling_ownership := s.scheduling_ownership.set idx (some pid) }, .ok ())
    | none => (s, .error .InvalidArgument)
  | .Unregister =>
    match pid with
    | some pid =>
      if s.scheduling_ownership.getD idx none ≠ some pid then
        (s, .error .PermissionDenied)
      else
        ({ s with scheduling_ownership := s.scheduling_ownership.set idx none }, .ok ())
    | none =>
      ({ s with scheduling_ownership := s.scheduling_ownership.set idx none }, .ok ())

/-- `EventManager::evctrl` (manager.rs:604-638): capability-guarded entry
point; the returned `Bool` stands for whether an ownership handle was
created (`Some(EventOwnership)` in the source). -/
def evctrl (caps : CapOracle) (s : EMState) (pid : Pid) (ev : Event)
    (req : EventCtrlRequest) : EMState × Except ErrorCode Bool :=
  match ev with
  | .interrupt n =>
    if ¬ s.interrupt_capable then
      (s, .error .OperationNotSupported)
    else
      match do_evctrl_interrupt caps s (some pid) n req with
      | (s1, .error e) => (s1, .error e)
      | (s1, .ok ()) =>
        match req with
        | .Register => (s1, .ok true)
        | .Unregister => (s1, .ok false)
  | .exception n =>
    match do_evctrl_exception caps s (some pid) n req with
    | (s1, .error e) => (s1, .error e)
    | (s1, .ok ()) =>
      match req with
      | .Register => (s1, .ok true)
      | .Unregister => (s1, .ok false)
  | .scheduling k =>
    match do_evctrl_scheduling caps s (some pid) k req with
    | (s1, .error e) => (s1, .error e)
    | (s1, .ok ()) =>
      match req with
      | .Register => (s1, .ok true)
      | .Unregister => (s1, .ok false)

/-- `EventOwnership::drop` (manager.rs:80-106): dropping an ownership handle
issues the internal pid-less `Unregister` for the handle's event. -/
def drop_ownership (caps : CapOracle) (s : EMState) (ev : Event) :
    EMState × Except ErrorCode Unit :=
  match ev with
  | .interrupt n => do_evctrl_interrupt caps s none n .Unregister
  | .exception n => do_evctrl_exception caps s none n .Unregister
  | .scheduling k => do_evctrl_scheduling caps s none k .Unregister

/-- `usize::trailing_zeros` restricted to the word width: index of the lowest
set bit, or `W` when no bit below `W` is set. -/
def trailingZeros (n : Nat) : Nat :=
  ((List.range W).find? (fun i => n.testBit i)).getD W

/-- `InterruptEvent::try_from` / `ExceptionEvent::try_from`; modelled from
the spec: an interrupt or exception index is valid iff it lies in `[0, W)`. -/
def eventIndexTryFrom (idx : Nat) : Except ErrorCode Nat :=
  if idx < W then .ok idx else .error .InvalidArgument

/-- `EventManagerInner::wakeup_interrupt` (manager.rs:424-449). Note the
guard at manager.rs:426 tests `interrupt_capable` itself, not its negation,
and that the descriptor is pushed before the ownership lookup. The final
condvar notification is modelled as always succeeding. -/
def wakeup_interrupt (s : EMState) (interrupts : Nat) :
    EMState × Except ErrorCode Unit :=
  if s.interrupt_capable then
    (s, .error .OperationNotSupported)
  else
    let s := { s with nevents := s.nevents + 1 }
    let idx := trailingZeros interrupts
    match eventIndexTryFrom idx with
    | .error e => (s, .error e)
    | .ok idx =>
      let eventid : EventDescriptor := ⟨s.nevents, .interrupt idx⟩
      let s := { s with
        pending_interrupts :=
          s.pending_interrupts.set idx ((s.pending_interrupts.getD idx []) ++ [eventid]) }
      match s.interrupt_ownership.getD idx none with
      | some _owner => (s, .ok ())
      | none => (s, .error .NoSuchProcess)

/-- `EventManagerInner::wakeup_exception` (manager.rs:451-489). The fresh
`Rc<Condvar>` is supplied by the caller as `freshHandle`; the missing-owner
and failed-notify arms hit `unimplemented!` in the source, modelled as the
`Unimplemented` error. -/
def wakeup_exception (s : EMState) (exceptions : Nat) (pid : Pid)
    (info : ExceptionInformation) (freshHandle : ResumeHandle) :
    EMState × Except ErrorCode ResumeHandle :=
  let s := { s with nevents := s.nevents + 1 }
  let idx := trailingZeros exceptions
  match eventIndexTryFrom idx with
  | .error e => (s, .error e)
  | .ok idx =>
    let eventid : EventDescriptor := ⟨s.nevents, .exception idx⟩
    let entry : PendingException := ⟨eventid, ⟨pid, info⟩, freshHandle⟩
    let s := { s with
      pending_exceptions :=
        s.pending_exceptions.set idx ((s.pending_exceptions.getD idx []) ++ [entry]) }
    match s.exception_ownership.getD idx none with
    | some _owner => (s, .ok freshHandle)
    | none => (s, .error .Unimplemented)

/-- `EventManagerInner::notify_process_termination` (manager.rs:502-524).
The entry is pushed before the ownership lookup; the condvar notification is
modelled as always succeeding. -/
def notify_process_termination (s : EMState) (info : ProcessTerminationInfo) :
    EMState × Except ErrorCode Unit :=
  let s := { s with nevents := s.nevents + 1 }
  let eventid : EventDescriptor := ⟨s.nevents, .scheduling 0⟩
  let s := { s with
    pending_scheduling :=
      s.pending_scheduling.set 0 ((s.pending_scheduling.getD 0 []) ++ [(eventid, info)]) }
  match s.scheduling_ownership.getD 0 none with
  | some _owner => (s, .ok ())
  | none => (s, .error .NoSuchProcess)

/-- The closure `is_pending_exception` of
`EventManagerInner::resume_exception` (manager.rs:391-396): an entry matches
when its descriptor's event is an exception with the same vector; the
sequence number is not compared. -/
def is_pending_exception (evdesc : EventDescriptor) (ev : Nat) : Bool :=
  match evdesc.event with
  | .exception ev2 => ev2 == ev
  | _ => false

/-- `Iterator::position` on a list, as used at manager.rs:409-412. -/
def findPos {α : Type} (p : α → Bool) : List α → Option Nat
  | [] => none
  | a :: l => if p a then some 0 else (findPos p l).map (· + 1)

/-- `EventManagerInner::resume_exception` (manager.rs:388-422). On success
the returned option carries the resume handle that was notified, if an entry
was found and removed; the missing-owner arm hits `unimplemented!`. -/
def resume_exception (s : EMState) (ev : Nat) :
    EMState × Except ErrorCode (Option ResumeHandle) :=
  let idx := ev
  match s.exception_ownership.getD idx none with
  | none => (s, .error .Unimplemented)
  | some _pid =>
    let q := s.pending_exceptions.getD idx []
    match findPos (fun e => is_pending_exception e.desc ev) q with
    | some j =>
      ({ s with pending_exceptions := s.pending_exceptions.set idx (q.eraseIdx j) },
       .ok ((q[j]?).map (·.resume)))
    | none => (s, .ok none)

/-- `EventManager::resume` (manager.rs:539-552): interrupts and scheduling
events need no action; for exceptions only the vector of the descriptor is
forwarded to `resume_exception`. -/
def resume (s : EMState) (evdesc : EventDescriptor) :
    EMState × Except ErrorCode (Option ResumeHandle) :=
  match evdesc.event with
  | .interrupt _ => (s, .ok none)
  | .exception ev => resume_exception s ev
  | .scheduling _ => (s, .ok none)

/-- The exception delivery message built at manager.rs:330-340: an
`EventInformation` wrapped into a `Message` with kernel source and type
`Exception`. -/
def excMessage (pid : Pid) (e : PendingException) : Message :=
  ⟨KERNEL_PID, pid, .Exception, 0,
   .eventInfo ⟨e.desc, e.info.pid, some e.info.info.num, some e.info.info.code,
               some e.info.info.addr, some e.info.info.instruction⟩⟩

/-- The interrupt branch of `try_wait` (manager.rs:304-321): scan indices
`0..W`, and at the first owned bit with a non-empty queue, pop the head and
build the kernel interrupt message (the popped descriptor is discarded). -/
def tryInterrupts (s : EMState) (pid : Pid) (interrupts : Nat) :
    Option (EMState × Message) :=
  match (List.range W).find?
      (fun i => interrupts.testBit i && !(s.pending_interrupts.getD i []).isEmpty) with
  | some i =>
    match s.pending_interrupts.getD i [] with
    | _event :: rest =>
      some ({ s with pending_interrupts := s.pending_interrupts.set i rest },
            ⟨KERNEL_PID, pid, .Interrupt, 0, .empty⟩)
    | [] => none
  | none => none

/-- The exception branch of `try_wait` (manager.rs:323-348): pop the head
entry, build the delivery message, and push the same entry back at the tail
of the same queue. -/
def tryExceptions (s : EMState) (pid : Pid) (exceptions : Nat) :
    Option (EMState × Message) :=
  match (List.range W).find?
      (fun i => exceptions.testBit i && !(s.pending_exceptions.getD i []).isEmpty) with
  | some i =>
    match s.pending_exceptions.getD i [] with
    | entry :: rest =>
      some ({ s with pending_exceptions := s.pending_exceptions.set i (rest ++ [entry]) },
            excMessage pid entry)
    | [] => none
  | none => none

/-- The scheduling branch of `try_wait` (manager.rs:350-373): pop the head
entry and serialize the termination record into the payload. -/
def tryScheduling (s : EMState) (pid : Pid) (scheduling : Nat) :
    Option (EMState × Message) :=
  match (List.range NSCHED).find?
      (fun i => scheduling.testBit i && !(s.pending_scheduling.getD i []).isEmpty) with
  | some i =>
    match s.pending_scheduling.getD i [] with
    | (_ev, info) :: rest =>
      some ({ s with pending_scheduling := s.pending_scheduling.set i rest },
            ⟨KERNEL_PID, pid, .SchedulingEvent, 0, .termination info⟩)
    | [] => none
  | none => none

/-- One iteration of the class-rotation loop of `try_wait`: the branch taken
when `(nevents + i) % 3` equals `c`. -/
def tryClass (s : EMState) (pid : Pid) (c : Nat)
    (interrupts exceptions scheduling : Nat) : Option (EMState × Message) :=
  if c = 0 then tryInterrupts s pid interrupts
  else if c = 1 then tryExceptions s pid exceptions
  else if c = 2 then tryScheduling s pid scheduling
  else none

/-- `EventManagerInner::try_wait` (manager.rs:296-386): three loop
iterations try the classes `(nevents + i) % 3` for `i = 0, 1, 2`, returning
on the first hit; otherwise fall through to `ProcessManager::try_recv`,
modelled by the `recv` parameter. `nevents` is not modified. -/
def try_wait (s : EMState) (pid : Pid) (interrupts exceptions scheduling : Nat)
    (recv : Option Message) : EMState × Option Message :=
  match tryClass s pid (s.nevents % 3) interrupts exceptions scheduling with
  | some (s1, m) => (s1, some m)
  | none =>
    match tryClass s pid ((s.nevents + 1) % 3) interrupts exceptions scheduling with
    | some (s1, m) => (s1, some m)
    | none =>
      match tryClass s pid ((s.nevents + 2) % 3) interrupts exceptions scheduling with
      | some (s1, m) => (s1, some m)
      | none => (s, recv)

/-- Outcome of one `ProcessManager::harvest_zombies` call as seen by the
dispatcher loop (handler.rs:111-131). -/
inductive HarvestResult
  | nothing
  | harvested (pid : Pid) (status : Int)
  | failed
  deriving DecidableEq

/-- Whether a harvest result reaps the process daemon. -/
def isProcdHarvest : HarvestResult → Bool
  | .harvested pid _ => pid == PROCD
  | _ => false

/-- The zombie-reaping tail of one `kcall_handler` loop iteration
(handler.rs:111-131): `Ok(None)` and `Err(_)` leave the state alone; a
harvested pid equal to `PROCD` breaks out of the loop (returned flag
`true`); any other pid is published through `notify_process_termination`,
whose failure is only logged. -/
def zombiePhase (s : EMState) : HarvestResult → EMState × Bool
  | .nothing => (s, false)
  | .failed => (s, false)
  | .harvested pid status =>
    if pid = PROCD then (s, true)
    else ((notify_process_termination s ⟨pid, status⟩).1, false)

/-- The dispatcher main loop restricted to its zombie-reaping effect on the
event state (handler.rs:44-139), driven by the sequence of harvest outcomes
of its iterations. After the `PROCD` break the remaining zombies are only
drained and logged (handler.rs:134-136), leaving the event state unchanged. -/
def dispatcherLoop (s : EMState) : List HarvestResult → EMState
  | [] => s
  | h :: rest =>
    let r := zombiePhase s h
    if r.2 then r.1 else dispatcherLoop r.1 rest

/-- One event injection, tagged by class, as fed to the injection paths of
the manager; the fresh resume handle for exceptions is the model's
allocator choice. -/
inductive Injection
  | intr (mask : Nat)
  | exc (mask : Nat) (pid : Pid) (info : ExceptionInformation) (handle : ResumeHandle)
  | term (info : ProcessTerminationInfo)

/-- State effect of one injection. -/
def injApply (s : EMState) : Injection → EMState
  | .intr mask => (wakeup_interrupt s mask).1
  | .exc mask pid info h => (wakeup_exception s mask pid info h).1
  | .term info => (notify_process_termination s info).1

/-- Descriptors allocated (`EventDescriptor::new` calls reached) by one
injection, read off the source control flow: `wakeup_interrupt` allocates
only past the capability guard and a valid index, `wakeup_exception` past a
valid index, `notify_process_termination` always; the allocated sequence
number is the incremented `nevents`. -/
def injAlloc (s : EMState) : Injection → List EventDescriptor
  | .intr mask =>
    if s.interrupt_capable then []
    else if trailingZeros mask < W then
      [⟨s.nevents + 1, .interrupt (trailingZeros mask)⟩]
    else []
  | .exc mask _ _ _ =>
    if trailingZeros mask < W then
      [⟨s.nevents + 1, .exception (trailingZeros mask)⟩]
    else []
  | .term _ => [⟨s.nevents + 1, .scheduling 0⟩]

/-- Run a sequence of injections, collecting every allocated descriptor in
injection order. -/
def runAlloc : EMState → List Injection → List EventDescriptor
  | _, [] => []
  | s, i :: rest => injAlloc s i ++ runAlloc (injApply s i) rest

/-! Concrete states used to evaluate the operations at specific inputs. -/

/-- A manager state with empty tables, as after `init` on a machine without
an interrupt controller. -/
def emptyEM : EMState :=
  ⟨false, 0, [], [], [], [], [], []⟩

/-- Capability oracle granting every capability. -/
def capsAll : CapOracle := fun _ _ => true

/-- Interrupt-capable state in which pid 2 owns interrupt 0. -/
def sIntOwned : EMState := { emptyEM with
  interrupt_capable := true
  interrupt_ownership := [some 2]
  pending_interrupts := [[]] }

/-- Same ownership as `sIntOwned` but on a kernel without interrupt support. -/
def sIntOwnedIncapable : EMState := { sIntOwned with interrupt_capable := false }

/-- Interrupt-incapable state in which interrupt 0 has no owner. -/
def sIntUnowned : EMState := { emptyEM with
  interrupt_ownership := [none]
  pending_interrupts := [[]] }

/-- A pending exception entry with descriptor sequence 1 and resume handle 10. -/
def excEntryA : PendingException := ⟨⟨1, .exception 0⟩, ⟨9, ⟨0, 0, 0, 0⟩⟩, 10⟩

/-- A pending exception entry with descriptor sequence 2 and resume handle 11. -/
def excEntryB : PendingException := ⟨⟨2, .exception 0⟩, ⟨9, ⟨0, 0, 0, 0⟩⟩, 11⟩

/-- State with two pending exceptions on vector 0, owned by pid 5. -/
def sTwoExc : EMState := { emptyEM with
  nevents := 2
  exception_ownership := [some 5]
  pending_exceptions := [[excEntryA, excEntryB]] }

/-- State with a single pending exception on vector 0, owned by pid 7. -/
def sOneExc : EMState := { emptyEM with
  exception_ownership := [some 7]
  pending_exceptions := [[excEntryA]] }

/-- State with one pending interrupt and one pending exception, both on
index 0 and owned by pid 7, with `nevents` left as a parameter to select
the class rotation. -/
def sIntExc (n : Nat) : EMState := { emptyEM with
  nevents := n
  interrupt_ownership := [some 7]
  pending_interrupts := [[⟨100, .interrupt 0⟩]]
  exception_ownership := [some 7]
  pending_exceptions := [[excEntryA]] }

/-- `sIntExc` after its pending interrupt has been consumed. -/
def sIntExcDrained (n : Nat) : EMState := { sIntExc n with pending_interrupts := [[]] }

/-- The kernel interrupt message delivered to pid 7. -/
def intMsg7 : Message := ⟨KERNEL_PID, 7, .Interrupt, 0, .empty⟩

/-- State in which pid 3 owns the process-termination scheduling slot. -/
def sSched : EMState := { emptyEM with
  scheduling_ownership := [some 3]
  pending_scheduling := [[]] }

/-! ## Theorems -/

/-- Claim C1: for an interrupt index owned by process P, an `Unregister`
request by P should succeed and clear the slot. Evaluation at the failing
input: with interrupt 0 owned by pid 2, the owner's `Unregister` (both
through `evctrl` and directly through `do_evctrl_interrupt`) is rejected
with `ResourceBusy` by the early occupied-slot check at manager.rs:131-137,
and the slot stays owned, contradicting the claim. -/
theorem c1_unregister_by_owner_rejected :
    do_evctrl_interrupt capsAll sIntOwned (some 2) 0 .Unregister
      = (sIntOwned, .error .ResourceBusy)
    ∧ evctrl capsAll sIntOwned 2 (.interrupt 0) .Unregister
      = (sIntOwned, .error .ResourceBusy)
    ∧ sIntOwned.interrupt_ownership.getD 0 none = some 2 :=
  ⟨rfl, rfl, rfl⟩

/-- Claim C7: dropping a registered ownership handle should clear the slot
for all three classes. Evaluation at the failing input: for an interrupt
handle (slot 0 owned by pid 2) the drop path's pid-less `Unregister` is
rejected with `ResourceBusy` and the slot stays owned; for an exception
handle the same path does clear the slot. -/
theorem c7_interrupt_handle_drop_fails_to_clear :
    drop_ownership capsAll sIntOwned (.interrupt 0) = (sIntOwned, .error .ResourceBusy)
    ∧ (drop_ownership capsAll sIntOwned (.interrupt 0)).1.interrupt_ownership.getD 0 none
        = some 2
    ∧ (drop_ownership capsAll sOneExc (.exception 0)).2 = .ok ()
    ∧ (drop_ownership capsAll sOneExc (.exception 0)).1.exception_ownership.getD 0 none
        = none :=
  ⟨rfl, rfl, rfl, rfl⟩

/-- Claim C8: `wakeup_interrupt` should fail with `OperationNotSupported`
exactly when the kernel is not interrupt-capable. Evaluation at the failing
input: the guard at manager.rs:426 is inverted, so on an interrupt-capable
state (owner present) the call is rejected with `OperationNotSupported`,
while on the identical interrupt-incapable state it proceeds and succeeds. -/
theorem c8_capability_guard_inverted :
    wakeup_interrupt sIntOwned 1 = (sIntOwned, .error .OperationNotSupported)
    ∧ (wakeup_interrupt sIntOwnedIncapable 1).2 = .ok () :=
  ⟨rfl, rfl⟩

/-- Claim C10: for exception and scheduling events, an `Unregister` with no
pid supplied (the internal path used by ownership-handle drop) always
succeeds and clears the ownership slot, with no check against the current
owner, whatever the prior contents of the slot. -/
theorem c10_pidless_unregister_always_clears (caps : CapOracle) (s : EMState) (idx : Nat) :
    do_evctrl_exception caps s none idx .Unregister
      = ({ s with exception_ownership := s.exception_ownership.set idx none }, .ok ())
    ∧ do_evctrl_scheduling caps s none idx .Unregister
      = ({ s with scheduling_ownership := s.scheduling_ownership.set idx none }, .ok ()) :=
  ⟨rfl, rfl⟩

/-- Claim C2, counterexample: with two pending exceptions on vector 0
(descriptor sequences 1 and 2, resume handles 10 and 11), `resume` with the
descriptor of sequence 2 removes the entry of sequence 1 and notifies handle
10, while the entry whose descriptor actually matches stays queued: the
match at manager.rs:391-396 compares only the vector, not the descriptor. -/
theorem c2_resume_matches_vector_not_descriptor_cex :
    resume sTwoExc ⟨2, .exception 0⟩
      = ({ sTwoExc with pending_exceptions := [[excEntryB]] }, .ok (some 10))
    ∧ excEntryB.desc = ⟨2, .exception 0⟩
    ∧ excEntryA.resume = 10
    ∧ excEntryA.desc ≠ (⟨2, .exception 0⟩ : EventDescriptor) :=
  ⟨rfl, rfl, rfl, by decide⟩

/-- Claim C3, counterexample: on an interrupt-incapable state with no owner
for interrupt 0, `wakeup_interrupt` returns `NoSuchProcess` but has already
pushed the freshly allocated descriptor, so `pending_interrupts` does not
stay unchanged. -/
theorem c3_wakeup_unowned_enqueues_cex :
    (wakeup_interrupt sIntUnowned 1).2 = .error .NoSuchProcess
    ∧ (wakeup_interrupt sIntUnowned 1).1.pending_interrupts
        ≠ sIntUnowned.pending_interrupts :=
  ⟨rfl, by decide⟩

/-- Claim C6, counterexample: with one pending interrupt and one pending
exception (both owned by pid 7) and `nevents ≡ 1 (mod 3)`, two back-to-back
`try_wait` calls both deliver the exception class (the exception entry is
re-queued and `nevents` is unchanged by `try_wait`), while the interrupt
stays pending — the same class is returned twice while the other class's
event remains pending. -/
theorem c6_rotation_delivers_same_class_twice_cex :
    (try_wait (sIntExc 1) 7 1 1 0 none).2.map Message.message_type = some .Exception
    ∧ (try_wait (try_wait (sIntExc 1) 7 1 1 0 none).1 7 1 1 0 none).2.map
        Message.message_type = some .Exception
    ∧ (try_wait (try_wait (sIntExc 1) 7 1 1 0 none).1 7 1 1 0 none).1.pending_interrupts.getD
        0 [] ≠ [] :=
  ⟨rfl, rfl, by decide⟩

/-- Claim C2, amended: when the exception vector has an owner and the queue
head's event matches the vector of the resumed descriptor (which holds for
every entry the manager enqueues), `resume(D)` removes the head entry of
`pending_exceptions[index(D)]` — regardless of D's sequence number — and
notifies that entry's resume handle; the removed entry is gone from the
queue, so subsequent waits do not redeliver it. -/
theorem c2_resume_removes_head_of_vector_queue (s : EMState) (idx seq : Nat) (pid : Pid)
    (e : PendingException) (rest : List PendingException)
    (hown : s.exception_ownership.getD idx none = some pid)
    (hq : s.pending_exceptions.getD idx [] = e :: rest)
    (he : e.desc.event = .exception idx) :
    resume s ⟨seq, .exception idx⟩
      = ({ s with pending_exceptions := s.pending_exceptions.set idx rest },
         .ok (some e.resume)) := by
  simp only [resume, resume_exception, hown, hq, findPos, is_pending_exception, he,
    beq_self_eq_true, if_true, List.eraseIdx, List.getElem?_cons_zero]
  rfl

/-- Witness for `c2_resume_removes_head_of_vector_queue` at a concrete
state: a single pending exception on vector 0 owned by pid 7 is removed and
its handle 10 is notified. -/
theorem c2_resume_removes_head_witness :
    (resume sOneExc ⟨1, .exception 0⟩).2 = .ok (some 10) := by
  rw [c2_resume_removes_head_of_vector_queue sOneExc 0 1 7 excEntryA [] rfl rfl rfl]
  rfl

/-- Claim C3, amended: an interrupt injection targeting an unowned index
(past the capability guard) does return `NoSuchProcess` to the injector, but
the event descriptor has already been enqueued: `nevents` is incremented and
the descriptor is pushed to the tail of `pending_interrupts[idx]` before the
ownership lookup, so the pending queue does not stay unchanged. -/
theorem c3_unowned_interrupt_error_but_enqueued (s : EMState) (mask : Nat)
    (hcap : s.interrupt_capable = false)
    (hidx : trailingZeros mask < W)
    (hown : s.interrupt_ownership.getD (trailingZeros mask) none = none) :
    (wakeup_interrupt s mask).2 = .error .NoSuchProcess
    ∧ (wakeup_interrupt s mask).1.nevents = s.nevents + 1
    ∧ (wakeup_interrupt s mask).1.pending_interrupts
        = s.pending_interrupts.set (trailingZeros mask)
            ((s.pending_interrupts.getD (trailingZeros mask) [])
              ++ [⟨s.nevents + 1, .interrupt (trailingZeros mask)⟩]) := by
  simp only [List.getD_eq_getElem?_getD] at hown
  refine ⟨?_, ?_, ?_⟩ <;>
    simp [wakeup_interrupt, eventIndexTryFrom, hcap, hidx, hown]

/-- Witness for `c3_unowned_interrupt_error_but_enqueued` at a concrete
state: injecting IRQ 0 with no owner yields `NoSuchProcess` while the
descriptor of sequence 1 has been enqueued. -/
theorem c3_unowned_interrupt_witness :
    (wakeup_interrupt sIntUnowned 1).2 = .error .NoSuchProcess
    ∧ (wakeup_interrupt sIntUnowned 1).1.pending_interrupts = [[⟨1, .interrupt 0⟩]] := by
  have h := c3_unowned_interrupt_error_but_enqueued sIntUnowned 1 rfl (by decide) rfl
  exact ⟨h.1, by rw [h.2.2]; rfl⟩

/-- A message delivered by the interrupt branch always has type `Interrupt`. -/
theorem tryInterrupts_some_type {s : EMState} {pid : Pid} {mask : Nat} {s1 : EMState}
    {m : Message} (h : tryInterrupts s pid mask = some (s1, m)) :
    m.message_type = MessageType.Interrupt := by
  unfold tryInterrupts at h
  split at h
  · split at h
    · simp only [Option.some.injEq, Prod.mk.injEq] at h
      rw [← h.2]
    · simp at h
  · simp at h

/-- A message delivered by the scheduling branch always has type
`SchedulingEvent`. -/
theorem tryScheduling_some_type {s : EMState} {pid : Pid} {mask : Nat} {s1 : EMState}
    {m : Message} (h : tryScheduling s pid mask = some (s1, m)) :
    m.message_type = MessageType.SchedulingEvent := by
  unfold tryScheduling at h
  split at h
  · split at h
    · simp only [Option.some.injEq, Prod.mk.injEq] at h
      rw [← h.2]
    · simp at h
  · simp at h

/-- A delivery by the exception branch pops the head of some owned queue,
re-pushes the very same entry at the tail of the same queue, and builds the
delivery message from that entry. -/
theorem tryExceptions_some_spec {s : EMState} {pid : Pid} {mask : Nat} {s1 : EMState}
    {m : Message} (h : tryExceptions s pid mask = some (s1, m)) :
    ∃ idx e rest, s.pending_exceptions.getD idx [] = e :: rest ∧
      s1 = { s with pending_exceptions := s.pending_exceptions.set idx (rest ++ [e]) } ∧
      m = excMessage pid e := by
  unfold tryExceptions at h
  split at h
  next i hfind =>
    split at h
    next e rest hq =>
      simp only [Option.some.injEq, Prod.mk.injEq] at h
      exact ⟨i, e, rest, hq, h.1.symm, h.2.symm⟩
    next hq => simp at h
  next => simp at h

/-- A hit of the rotation selector comes from one of the three class
branches. -/
theorem tryClass_some {s : EMState} {pid : Pid} {c i x sch : Nat}
    {r : EMState × Message} (h : tryClass s pid c i x sch = some r) :
    tryInterrupts s pid i = some r ∨ tryExceptions s pid x = some r ∨
      tryScheduling s pid sch = some r := by
  unfold tryClass at h
  split at h
  · exact Or.inl h
  · split at h
    · exact Or.inr (Or.inl h)
    · split at h
      · exact Or.inr (Or.inr h)
      · cases h

/-- A message delivered by `try_wait` with an empty mailbox comes from one
of the three class branches. -/
theorem try_wait_msg_cases {s : EMState} {pid : Pid} {i x sch : Nat} {s1 : EMState}
    {m : Message} (h : try_wait s pid i x sch none = (s1, some m)) :
    tryInterrupts s pid i = some (s1, m) ∨ tryExceptions s pid x = some (s1, m) ∨
      tryScheduling s pid sch = some (s1, m) := by
  unfold try_wait at h
  split at h
  next s2 m2 heq =>
    simp only [Prod.mk.injEq, Option.some.injEq] at h
    rw [← h.1, ← h.2]
    exact tryClass_some heq
  next =>
    split at h
    next s2 m2 heq =>
      simp only [Prod.mk.injEq, Option.some.injEq] at h
      rw [← h.1, ← h.2]
      exact tryClass_some heq
    next =>
      split at h
      next s2 m2 heq =>
        simp only [Prod.mk.injEq, Option.some.injEq] at h
        rw [← h.1, ← h.2]
        exact tryClass_some heq
      next =>
        simp at h

/-- A zero interrupt mask yields no interrupt delivery. -/
theorem tryInterrupts_zero (s : EMState) (pid : Pid) : tryInterrupts s pid 0 = none := by
  have h : (List.range W).find?
      (fun i => (0 : Nat).testBit i && !(s.pending_interrupts.getD i []).isEmpty) = none := by
    rw [List.find?_eq_none]
    intro x _
    simp
  simp only [tryInterrupts, h]

/-- A zero scheduling mask yields no scheduling delivery. -/
theorem tryScheduling_zero (s : EMState) (pid : Pid) : tryScheduling s pid 0 = none := by
  have h : (List.range NSCHED).find?
      (fun i => (0 : Nat).testBit i && !(s.pending_scheduling.getD i []).isEmpty) = none := by
    rw [List.find?_eq_none]
    intro x _
    simp
  simp only [tryScheduling, h]

/-- With zero interrupt and scheduling masks, `try_wait` reduces to the
exception branch (followed by the mailbox), whatever the rotation. -/
theorem try_wait_only_exc (s : EMState) (pid : Pid) (x : Nat) (recv : Option Message) :
    try_wait s pid 0 x 0 recv =
      match tryExceptions s pid x with
      | some (s1, m) => (s1, some m)
      | none => (s, recv) := by
  have h3 : s.nevents % 3 = 0 ∨ s.nevents % 3 = 1 ∨ s.nevents % 3 = 2 := by omega
  rcases h3 with h | h | h
  · have h1 : (s.nevents + 1) % 3 = 1 := by omega
    have h2 : (s.nevents + 2) % 3 = 2 := by omega
    rcases htx : tryExceptions s pid x with _ | ⟨s1, m⟩ <;>
      simp [try_wait, tryClass, h, h1, h2, tryInterrupts_zero, tryScheduling_zero, htx]
  · have h1 : (s.nevents + 1) % 3 = 2 := by omega
    have h2 : (s.nevents + 2) % 3 = 0 := by omega
    rcases htx : tryExceptions s pid x with _ | ⟨s1, m⟩ <;>
      simp [try_wait, tryClass, h, h1, h2, tryInterrupts_zero, tryScheduling_zero, htx]
  · have h1 : (s.nevents + 1) % 3 = 0 := by omega
    have h2 : (s.nevents + 2) % 3 = 1 := by omega
    rcases htx : tryExceptions s pid x with _ | ⟨s1, m⟩ <;>
      simp [try_wait, tryClass, h, h1, h2, tryInterrupts_zero, tryScheduling_zero, htx]

/-- In a list whose only possible hit is `idx`, `find?` returns `idx` as
soon as it is present and satisfies the predicate. -/
theorem find_first_of_unique {p : Nat → Bool} {idx : Nat} :
    ∀ l : List Nat, idx ∈ l → p idx = true → (∀ j ∈ l, j ≠ idx → p j = false) →
      l.find? p = some idx := by
  intro l
  induction l with
  | nil => intro h; exact absurd h (List.not_mem_nil idx)
  | cons a l ih =>
    intro hmem hp hall
    by_cases ha : a = idx
    · subst ha
      simp [List.find?, hp]
    · have hpa : p a = false := hall a (List.mem_cons_self a l) ha
      have hmem2 : idx ∈ l := by
        rcases List.mem_cons.mp hmem with h | h
        · exact absurd h.symm ha
        · exact h
      simp only [List.find?, hpa]
      exact ih hmem2 hp (fun j hj => hall j (List.mem_cons_of_mem a hj))

/-- Reading back an updated slot within bounds. -/
theorem getD_set_lt {α : Type} (l : List α) (i : Nat) (a d : α) (h : i < l.length) :
    (l.set i a).getD i d = a := by
  induction l generalizing i with
  | nil => simp at h
  | cons b l ih =>
    cases i with
    | zero => rfl
    | succ i => simpa using ih i (by simpa using h)

/-- The exception branch under a single-bit mask: with a non-empty queue at
the selected index, the head entry is delivered and re-queued at the tail. -/
theorem tryExceptions_bit (s : EMState) (pid : Pid) (idx : Nat) (e : PendingException)
    (rest : List PendingException) (hidx : idx < W)
    (hq : s.pending_exceptions.getD idx [] = e :: rest) :
    tryExceptions s pid (2 ^ idx) =
      some ({ s with pending_exceptions := s.pending_exceptions.set idx (rest ++ [e]) },
            excMessage pid e) := by
  have hfind : (List.range W).find?
      (fun i => (2 ^ idx).testBit i && !(s.pending_exceptions.getD i []).isEmpty) = some idx := by
    apply find_first_of_unique
    · exact List.mem_range.mpr hidx
    · have hq2 := hq
      simp only [List.getD_eq_getElem?_getD] at hq2
      simp [Nat.testBit_two_pow_self, hq2]
    · intro j _ hne
      simp [Nat.testBit_two_pow_of_ne (Ne.symm hne)]
  simp only [tryExceptions, hfind, hq]

/-- Claim C4: (a) whenever `try_wait` (with an empty mailbox) delivers an
`Exception` message, the exception branch has popped the head entry of the
selected queue, built the delivery message from it, and pushed the same
entry back at the tail of the same queue — the entry is not removed by
delivery; (b) consequently, with a single pending exception selected by the
mask, a second `try_wait` before any `resume` delivers the same descriptor
again. -/
theorem c4_exception_requeue_and_redelivery :
    (∀ (s : EMState) (pid : Pid) (i x sch : Nat) (s1 : EMState) (m : Message),
      try_wait s pid i x sch none = (s1, some m) →
      m.message_type = MessageType.Exception →
      ∃ idx e rest, s.pending_exceptions.getD idx [] = e :: rest ∧
        s1 = { s with pending_exceptions := s.pending_exceptions.set idx (rest ++ [e]) } ∧
        m = excMessage pid e)
    ∧ (∀ (s : EMState) (pid : Pid) (idx : Nat) (e : PendingException),
      idx < W → s.pending_exceptions.getD idx [] = [e] →
      (try_wait s pid 0 (2 ^ idx) 0 none).2 = some (excMessage pid e) ∧
      (try_wait (try_wait s pid 0 (2 ^ idx) 0 none).1 pid 0 (2 ^ idx) 0 none).2 =
        some (excMessage pid e)) := by
  constructor
  · intro s pid i x sch s1 m h hm
    rcases try_wait_msg_cases h with hc | hc | hc
    · rw [tryInterrupts_some_type hc] at hm
      cases hm
    · exact tryExceptions_some_spec hc
    · rw [tryScheduling_some_type hc] at hm
      cases hm
  · intro s pid idx e hidx hq
    have h1 := tryExceptions_bit s pid idx e [] hidx hq
    have hlen : idx < s.pending_exceptions.length := by
      by_contra hc
      push_neg at hc
      rw [List.getD_eq_default _ _ hc] at hq
      cases hq
    have hq2 : ({ s with pending_exceptions := s.pending_exceptions.set idx ([] ++ [e])}
        : EMState).pending_exceptions.getD idx [] = [e] := by
      simpa using getD_set_lt s.pending_exceptions idx [e] [] hlen
    have h2 := tryExceptions_bit
      { s with pending_exceptions := s.pending_exceptions.set idx ([] ++ [e]) }
      pid idx e [] hidx hq2
    rw [try_wait_only_exc, h1]
    refine ⟨rfl, ?_⟩
    rw [try_wait_only_exc, h2]

/-- Witness for `c4_exception_requeue_and_redelivery` at a concrete state:
with one pending exception on vector 0 owned by pid 7, two consecutive
`try_wait` calls both deliver the message for that entry. -/
theorem c4_exception_requeue_witness :
    (try_wait sOneExc 7 0 (2 ^ 0) 0 none).2 = some (excMessage 7 excEntryA)
    ∧ (try_wait (try_wait sOneExc 7 0 (2 ^ 0) 0 none).1 7 0 (2 ^ 0) 0 none).2 =
        some (excMessage 7 excEntryA) :=
  c4_exception_requeue_and_redelivery.2 sOneExc 7 0 excEntryA (by decide) rfl

/-- `wakeup_interrupt` leaves the state untouched on a capable kernel (the
inverted guard rejects before any mutation). -/
theorem wakeup_interrupt_fst_capable (s : EMState) (mask : Nat)
    (h : s.interrupt_capable = true) : (wakeup_interrupt s mask).1 = s := by
  simp [wakeup_interrupt, h]

/-- Past the guard, `wakeup_interrupt` increments `nevents` exactly once,
whether or not it errors later. -/
theorem wakeup_interrupt_fst_nevents (s : EMState) (mask : Nat)
    (h : s.interrupt_capable = false) :
    (wakeup_interrupt s mask).1.nevents = s.nevents + 1 := by
  simp only [wakeup_interrupt, h, Bool.false_eq_true, if_false]
  split
  · rfl
  · split <;> rfl

/-- `wakeup_exception` increments `nevents` exactly once. -/
theorem wakeup_exception_fst_nevents (s : EMState) (mask : Nat) (pid : Pid)
    (info : ExceptionInformation) (hh : ResumeHandle) :
    (wakeup_exception s mask pid info hh).1.nevents = s.nevents + 1 := by
  simp only [wakeup_exception]
  split
  · rfl
  · split <;> rfl

/-- `notify_process_termination` increments `nevents` exactly once. -/
theorem notify_fst_nevents (s : EMState) (info : ProcessTerminationInfo) :
    (notify_process_termination s info).1.nevents = s.nevents + 1 := by
  simp only [notify_process_termination]
  split <;> rfl

/-- Grounding of `injAlloc` for exceptions: the allocated descriptor is
exactly the one pushed to the pending queue by `wakeup_exception`. -/
theorem injAlloc_exc_grounded (s : EMState) (mask : Nat) (pid : Pid)
    (info : ExceptionInformation) (hh : ResumeHandle)
    (hidx : trailingZeros mask < W) :
    injAlloc s (.exc mask pid info hh) = [⟨s.nevents + 1, .exception (trailingZeros mask)⟩]
    ∧ (wakeup_exception s mask pid info hh).1.pending_exceptions
        = s.pending_exceptions.set (trailingZeros mask)
            ((s.pending_exceptions.getD (trailingZeros mask) [])
              ++ [⟨⟨s.nevents + 1, .exception (trailingZeros mask)⟩, ⟨pid, info⟩, hh⟩]) := by
  constructor
  · simp [injAlloc, hidx]
  · have he : eventIndexTryFrom (trailingZeros mask) = Except.ok (trailingZeros mask) := by
      simp [eventIndexTryFrom, hidx]
    simp only [wakeup_exception, he]
    split <;> rfl

/-- Grounding of `injAlloc` for terminations: the allocated descriptor is
exactly the one pushed by `notify_process_termination`. -/
theorem injAlloc_term_grounded (s : EMState) (info : ProcessTerminationInfo) :
    injAlloc s (.term info) = [⟨s.nevents + 1, .scheduling 0⟩]
    ∧ (notify_process_termination s info).1.pending_scheduling
        = s.pending_scheduling.set 0
            ((s.pending_scheduling.getD 0 []) ++ [(⟨s.nevents + 1, .scheduling 0⟩, info)]) := by
  refine ⟨rfl, ?_⟩
  simp only [notify_process_termination]
  split <;> rfl

/-- `nevents` never decreases across an injection. -/
theorem injApply_nevents_le (s : EMState) (i : Injection) :
    s.nevents ≤ (injApply s i).nevents := by
  cases i with
  | intr mask =>
    rcases hc : s.interrupt_capable with _ | _
    · simp only [injApply, wakeup_interrupt_fst_nevents s mask hc]
      omega
    · simp only [injApply, wakeup_interrupt_fst_capable s mask hc, Nat.le_refl]
  | exc mask pid info hh =>
    simp only [injApply, wakeup_exception_fst_nevents]
    omega
  | term info =>
    simp only [injApply, notify_fst_nevents]
    omega

/-- Every descriptor allocated by an injection has a sequence number
strictly above the previous `nevents` and at most the new `nevents`. -/
theorem injAlloc_bounds (s : EMState) (i : Injection) (d : EventDescriptor)
    (hd : d ∈ injAlloc s i) :
    s.nevents < d.sequence ∧ d.sequence ≤ (injApply s i).nevents := by
  cases i with
  | intr mask =>
    rcases hc : s.interrupt_capable with _ | _
    · simp only [injAlloc, hc, Bool.false_eq_true, if_false] at hd
      by_cases hw : trailingZeros mask < W
      · rw [if_pos hw] at hd
        simp only [List.mem_singleton] at hd
        subst hd
        simp only [injApply, wakeup_interrupt_fst_nevents s mask hc]
        omega
      · rw [if_neg hw] at hd
        cases hd
    · simp [injAlloc, hc] at hd
  | exc mask pid info hh =>
    simp only [injAlloc] at hd
    by_cases hw : trailingZeros mask < W
    · rw [if_pos hw] at hd
      simp only [List.mem_singleton] at hd
      subst hd
      simp only [injApply, wakeup_exception_fst_nevents]
      omega
    · rw [if_neg hw] at hd
      cases hd
  | term info =>
    simp only [injAlloc, List.mem_singleton] at hd
    subst hd
    simp only [injApply, notify_fst_nevents]
    omega

/-- Every descriptor allocated along a run has a sequence number strictly
above the starting `nevents`. -/
theorem runAlloc_lower (l : List Injection) :
    ∀ (s : EMState) (d : EventDescriptor), d ∈ runAlloc s l → s.nevents < d.sequence := by
  induction l with
  | nil =>
    intro s d hd
    simp [runAlloc] at hd
  | cons i rest ih =>
    intro s d hd
    simp only [runAlloc, List.mem_append] at hd
    rcases hd with h | h
    · exact (injAlloc_bounds s i d h).1
    · have h1 := ih (injApply s i) d h
      have h2 := injApply_nevents_le s i
      omega

/-- An `injAlloc` result has at most one element, so it is trivially
pairwise-increasing. -/
theorem injAlloc_pairwise (s : EMState) (i : Injection) :
    List.Pairwise (fun d1 d2 : EventDescriptor => d1.sequence < d2.sequence)
      (injAlloc s i) := by
  cases i with
  | intr mask =>
    simp only [injAlloc]
    split
    · simp
    · split <;> simp
  | exc mask pid info hh =>
    simp only [injAlloc]
    split <;> simp
  | term info => simp [injAlloc]

/-- Claim C5: over any sequence of injections of the three classes, in any
interleaving, the sequence numbers of the allocated event descriptors are
strictly increasing in injection order. -/
theorem c5_sequence_numbers_strictly_increasing (s : EMState) (l : List Injection) :
    List.Pairwise (fun d1 d2 : EventDescriptor => d1.sequence < d2.sequence)
      (runAlloc s l) := by
  induction l generalizing s with
  | nil => simp [runAlloc]
  | cons i rest ih =>
    rw [runAlloc, List.pairwise_append]
    refine ⟨injAlloc_pairwise s i, ih (injApply s i), ?_⟩
    intro a ha b hb
    have h1 := (injAlloc_bounds s i a ha).2
    have h2 := runAlloc_lower rest (injApply s i) b hb
    omega

/-- Claim C6, amended: with one pending interrupt and one pending exception
(owned by the same process, nothing else pending), two back-to-back waits
return one message of each class when the current rotation does not select
the exception class first (`nevents % 3 ≠ 1`); but when the rotation selects
exceptions first (`nevents % 3 = 1`), both calls deliver the exception —
which is re-queued on each delivery while `try_wait` leaves `nevents`
unchanged — and the interrupt stays pending. -/
theorem c6_two_waits_one_of_each_unless_exception_first (n : Nat) :
    (n % 3 ≠ 1 →
      (try_wait (sIntExc n) 7 1 1 0 none).2.map Message.message_type
          = some MessageType.Interrupt
      ∧ (try_wait (try_wait (sIntExc n) 7 1 1 0 none).1 7 1 1 0 none).2.map
          Message.message_type = some MessageType.Exception)
    ∧ (n % 3 = 1 →
      (try_wait (sIntExc n) 7 1 1 0 none).2.map Message.message_type
          = some MessageType.Exception
      ∧ (try_wait (try_wait (sIntExc n) 7 1 1 0 none).1 7 1 1 0 none).2.map
          Message.message_type = some MessageType.Exception
      ∧ (try_wait (try_wait (sIntExc n) 7 1 1 0 none).1 7 1 1 0
          none).1.pending_interrupts.getD 0 [] ≠ []) := by
  have hn : (sIntExc n).nevents = n := rfl
  have hnD : (sIntExcDrained n).nevents = n := rfl
  have eInt : tryInterrupts (sIntExc n) 7 1 = some (sIntExcDrained n, intMsg7) := rfl
  have eExc : tryExceptions (sIntExc n) 7 1
      = some (sIntExc n, excMessage 7 excEntryA) := rfl
  have eIntD : tryInterrupts (sIntExcDrained n) 7 1 = none := rfl
  have eExcD : tryExceptions (sIntExcDrained n) 7 1
      = some (sIntExcDrained n, excMessage 7 excEntryA) := rfl
  have eSch : tryScheduling (sIntExc n) 7 0 = none := rfl
  have eSchD : tryScheduling (sIntExcDrained n) 7 0 = none := rfl
  have h3 : n % 3 = 0 ∨ n % 3 = 1 ∨ n % 3 = 2 := by omega
  constructor
  · intro hne
    rcases h3 with h | h | h
    · have h1 : (n + 1) % 3 = 1 := by omega
      have w1 : try_wait (sIntExc n) 7 1 1 0 none = (sIntExcDrained n, some intMsg7) := by
        simp [try_wait, tryClass, hn, h, h1, eInt]
      have w2 : try_wait (sIntExcDrained n) 7 1 1 0 none
          = (sIntExcDrained n, some (excMessage 7 excEntryA)) := by
        simp [try_wait, tryClass, hnD, h, h1, eIntD, eExcD]
      refine ⟨by rw [w1]; rfl, ?_⟩
      rw [w1]
      show (try_wait (sIntExcDrained n) 7 1 1 0 none).2.map Message.message_type
          = some MessageType.Exception
      rw [w2]
      rfl
    · exact absurd h hne
    · have h1 : (n + 1) % 3 = 0 := by omega
      have h2 : (n + 2) % 3 = 1 := by omega
      have w1 : try_wait (sIntExc n) 7 1 1 0 none = (sIntExcDrained n, some intMsg7) := by
        simp [try_wait, tryClass, hn, h, h1, h2, eSch, eInt]
      have w2 : try_wait (sIntExcDrained n) 7 1 1 0 none
          = (sIntExcDrained n, some (excMessage 7 excEntryA)) := by
        simp [try_wait, tryClass, hnD, h, h1, h2, eSchD, eIntD, eExcD]
      refine ⟨by rw [w1]; rfl, ?_⟩
      rw [w1]
      show (try_wait (sIntExcDrained n) 7 1 1 0 none).2.map Message.message_type
          = some MessageType.Exception
      rw [w2]
      rfl
  · intro h
    have w1 : try_wait (sIntExc n) 7 1 1 0 none
        = (sIntExc n, some (excMessage 7 excEntryA)) := by
      simp [try_wait, tryClass, hn, h, eExc]
    refine ⟨by rw [w1]; rfl, ?_, ?_⟩
    · rw [w1]
      show (try_wait (sIntExc n) 7 1 1 0 none).2.map Message.message_type
          = some MessageType.Exception
      rw [w1]
      rfl
    · rw [w1]
      show (try_wait (sIntExc n) 7 1 1 0 none).1.pending_interrupts.getD 0 [] ≠ []
      rw [w1]
      simp [sIntExc, emptyEM]

/-- Witness for `c6_two_waits_one_of_each_unless_exception_first` at the
two rotations: with `nevents = 0` the first wait delivers the interrupt,
with `nevents = 1` it delivers the exception. -/
theorem c6_two_waits_witness :
    (try_wait (sIntExc 0) 7 1 1 0 none).2.map Message.message_type
        = some MessageType.Interrupt
    ∧ (try_wait (sIntExc 1) 7 1 1 0 none).2.map Message.message_type
        = some MessageType.Exception :=
  ⟨((c6_two_waits_one_of_each_unless_exception_first 0).1 (by decide)).1,
   ((c6_two_waits_one_of_each_unless_exception_first 1).2 rfl).1⟩

/-- A harvest outcome that does not reap `PROCD` never breaks the loop. -/
theorem zombiePhase_no_procd_continues (s : EMState) (h : HarvestResult)
    (hh : isProcdHarvest h = false) : (zombiePhase s h).2 = false := by
  cases h with
  | nothing => rfl
  | failed => rfl
  | harvested pid status =>
    have hne : pid ≠ PROCD := by simpa [isProcdHarvest] using hh
    simp [zombiePhase, hne]

/-- After the `PROCD` harvest breaks the loop, the trailing harvest
outcomes are only drained: they do not change the event state. -/
theorem dispatcherLoop_stops_at_procd (pre : List HarvestResult) :
    ∀ (s : EMState) (post : List HarvestResult) (status : Int),
      (∀ h ∈ pre, isProcdHarvest h = false) →
      dispatcherLoop s (pre ++ .harvested PROCD status :: post) =
        dispatcherLoop s (pre ++ [.harvested PROCD status]) := by
  induction pre with
  | nil =>
    intro s post status _
    simp [dispatcherLoop, zombiePhase]
  | cons h rest ih =>
    intro s post status hpre
    have hh : isProcdHarvest h = false := hpre h (List.mem_cons_self h rest)
    have hcont := zombiePhase_no_procd_continues s h hh
    simp only [List.cons_append, dispatcherLoop, hcont, Bool.false_eq_true, if_false]
    exact ih (zombiePhase s h).1 post status
      (fun x hx => hpre x (List.mem_cons_of_mem h hx))

/-- Claim C9: in every dispatcher loop iteration whose zombie harvest
returns `(pid, status)`: (a) if `pid ≠ PROCD`, the iteration publishes a
`ProcessTermination` scheduling event carrying exactly `(pid, status)`
through `notify_process_termination` and the loop continues; (b) if
`pid = PROCD`, the iteration breaks out of the main loop without touching
the event state — no scheduling event is published for `PROCD`; (c) the
loop ignores everything after the `PROCD` harvest: the remaining zombies
are only drained. -/
theorem c9_zombie_to_event_pipeline :
    (∀ (s : EMState) (pid : Pid) (status : Int), pid ≠ PROCD →
      zombiePhase s (.harvested pid status)
          = ((notify_process_termination s ⟨pid, status⟩).1, false)
      ∧ (zombiePhase s (.harvested pid status)).1.pending_scheduling
          = s.pending_scheduling.set 0
              ((s.pending_scheduling.getD 0 [])
                ++ [(⟨s.nevents + 1, .scheduling 0⟩, ⟨pid, status⟩)]))
    ∧ (∀ (s : EMState) (status : Int),
      zombiePhase s (.harvested PROCD status) = (s, true))
    ∧ (∀ (s : EMState) (pre post : List HarvestResult) (status : Int),
      (∀ h ∈ pre, isProcdHarvest h = false) →
      dispatcherLoop s (pre ++ .harvested PROCD status :: post) =
        dispatcherLoop s (pre ++ [.harvested PROCD status])) := by
  refine ⟨?_, ?_, ?_⟩
  · intro s pid status hne
    constructor
    · simp [zombiePhase, hne]
    · rw [show (zombiePhase s (.harvested pid status)).1
            = (notify_process_termination s ⟨pid, status⟩).1 from by simp [zombiePhase, hne]]
      exact (injAlloc_term_grounded s ⟨pid, status⟩).2
  · intro s status
    simp [zombiePhase]
  · intro s pre post status hpre
    exact dispatcherLoop_stops_at_procd pre s post status hpre

/-- Witness for `c9_zombie_to_event_pipeline` at concrete inputs: reaping
pid 5 with status 7 enqueues the matching termination event; reaping
`PROCD` breaks without touching the state; the loop ignores harvests after
the `PROCD` one. -/
theorem c9_zombie_to_event_witness :
    (zombiePhase sSched (.harvested 5 7)).1.pending_scheduling
        = sSched.pending_scheduling.set 0
            ((sSched.pending_scheduling.getD 0 [])
              ++ [(⟨sSched.nevents + 1, .scheduling 0⟩, ⟨5, 7⟩)])
    ∧ zombiePhase sSched (.harvested PROCD 0) = (sSched, true)
    ∧ dispatcherLoop sSched [.harvested 5 7, .harvested PROCD 0, .harvested 6 0]
        = dispatcherLoop sSched [.harvested 5 7, .harvested PROCD 0] :=
  ⟨(c9_zombie_to_event_pipeline.1 sSched 5 7 (by decide)).2,
   c9_zombie_to_event_pipeline.2.1 sSched 0,
   c9_zombie_to_event_pipeline.2.2 sSched [.harvested 5 7] [.harvested 6 0] 0
     (by decide)⟩

end KernelEvent
